import Mathlib

/-!
Verification development for the Flashblocks devnet measurement scripts
(`src/scripts/send-transaction.ts`, `src/scripts/time_fb_txns.ts`).

The TypeScript sources are shallowly embedded below:
* JavaScript numbers that can arise in the aggregation pipeline are modelled
  by `JsNum` (an integer or `NaN`; the reachable values are integers).
* JSON values are modelled by the inductive `Json`; objects are association
  lists looked up by first match, mirroring JS property access.
* Stateful class fields of `FlashblocksStreamReader` become the explicit
  record `ReaderState`, and the `ws.on("message")` handler becomes the pure
  transition `onMessage`.
* External capabilities (UTF-8 decoding, `JSON.parse` validity,
  `gunzipSync`, `inflateSync`, `brotliDecompressSync`) are oracle fields of
  a `WireCodec` record; the decoder control flow itself is embedded exactly.
* The unbounded polling / timer loops are embedded with explicit fuel.
-/

/-- A JavaScript number as it can appear in the stream-reader pipeline:
either an integer or `NaN`.  (`parseInt` yields `NaN` on failure, and the
block numbers / gas values handled by the scripts are integral.)
Equality is `SameValueZero` as used by JS `Set`/`Map` keys, under which
`NaN` equals `NaN`; `deriving DecidableEq` gives exactly that. -/
inductive JsNum : Type
  | nan : JsNum
  | int (i : Int) : JsNum
  deriving DecidableEq, Repr

/-- JS `Math.max` restricted to `JsNum`: `NaN` propagates, otherwise the
larger integer is returned. -/
def jsMax : JsNum → JsNum → JsNum
  | JsNum.nan, _ => JsNum.nan
  | JsNum.int _, JsNum.nan => JsNum.nan
  | JsNum.int a, JsNum.int b => JsNum.int (max a b)

/-- Value of a character as a digit under the given radix (10 or 16),
as accepted by JS `parseInt`. -/
def digitVal (radix : Nat) (c : Char) : Option Nat :=
  if '0' ≤ c ∧ c ≤ '9' then
    let d := c.toNat - '0'.toNat
    if d < radix then some d else none
  else if radix = 16 ∧ 'a' ≤ c ∧ c ≤ 'f' then
    some (c.toNat - 'a'.toNat + 10)
  else if radix = 16 ∧ 'A' ≤ c ∧ c ≤ 'F' then
    some (c.toNat - 'A'.toNat + 10)
  else
    none

/-- Longest prefix of valid digits, as consumed by JS `parseInt`. -/
def leadingDigits (radix : Nat) : List Char → List Nat
  | [] => []
  | c :: rest =>
    match digitVal radix c with
    | some d => d :: leadingDigits radix rest
    | none => []

/-- Horner evaluation of a digit sequence. -/
def digitsToNat (radix : Nat) (ds : List Nat) : Nat :=
  ds.foldl (fun a d => a * radix + d) 0

/-- Is `c` one of the whitespace characters skipped by JS `parseInt`?
(The common ASCII subset suffices for this development.) -/
def isJsSpace (c : Char) : Bool :=
  c = ' ' ∨ c = '\t' ∨ c = '\n' ∨ c = '\r'

/-- JS `parseInt(s, radix)` for `radix ∈ {10, 16}`: skip leading
whitespace, read an optional sign, for radix 16 strip an optional
`0x`/`0X` prefix, then consume the longest valid digit prefix.  If no
digit was consumed the result is `NaN` — `parseInt` never throws. -/
def parseIntJS (radix : Nat) (s : String) : JsNum :=
  let cs0 := s.data.dropWhile isJsSpace
  let signAndRest : Int × List Char :=
    match cs0 with
    | '-' :: rest => (-1, rest)
    | '+' :: rest => (1, rest)
    | _ => (1, cs0)
  let cs1 := signAndRest.2
  let cs2 :=
    if radix = 16 then
      match cs1 with
      | '0' :: 'x' :: rest => rest
      | '0' :: 'X' :: rest => rest
      | _ => cs1
    else cs1
  let ds := leadingDigits radix cs2
  if ds = [] then JsNum.nan
  else JsNum.int (signAndRest.1 * (digitsToNat radix ds : Int))

/-- JSON values as produced by `JSON.parse`; objects keep their fields as
an association list in insertion order. -/
inductive Json : Type
  | null : Json
  | bool (b : Bool) : Json
  | num (n : JsNum) : Json
  | str (s : String) : Json
  | arr (items : List Json) : Json
  | obj (fields : List (String × Json)) : Json
  deriving Repr

/-- First-match field lookup on a JSON object, mirroring JS property
access on a parsed object. -/
def jsonLookup : List (String × Json) → String → Option Json
  | [], _ => none
  | (k, v) :: rest, q => if k = q then some v else jsonLookup rest q

/-- JS truthiness of a parsed JSON value (`if (!parsed) return;` in the
message handler): `null`, `false`, `0`, `NaN` and `""` are falsy. -/
def jsFalsy : Json → Bool
  | Json.null => true
  | Json.bool b => !b
  | Json.num JsNum.nan => true
  | Json.num (JsNum.int i) => i = 0
  | Json.str s => s = ""
  | _ => false

/-! ## Payload field extraction (`handlePayload`, send-transaction.ts:532-551) -/

/-- `typeof payload.metadata?.block_number === "number" ? ... : undefined`:
the block number is used only when `metadata` is an object whose
`block_number` field is a JS number (including `NaN`). -/
def payloadBlockNumber (p : List (String × Json)) : Option JsNum :=
  match jsonLookup p "metadata" with
  | some (Json.obj m) =>
    match jsonLookup m "block_number" with
    | some (Json.num k) => some k
    | _ => none
  | _ => none

/-- `Array.isArray(payload.diff?.transactions) ? payload.diff.transactions : []`. -/
def payloadTransactions (p : List (String × Json)) : List Json :=
  match jsonLookup p "diff" with
  | some (Json.obj d) =>
    match jsonLookup d "transactions" with
    | some (Json.arr xs) => xs
    | _ => []
  | _ => []

/-- `payload.diff?.gas_used ?? "0x0"`: the raw gas field, defaulting to
the string `"0x0"` when `diff` is not an object or the field is absent
or `null` (the cases where `??` fires). -/
def payloadGasRaw (p : List (String × Json)) : Json :=
  match jsonLookup p "diff" with
  | some (Json.obj d) =>
    match jsonLookup d "gas_used" with
    | some Json.null => Json.str "0x0"
    | some v => v
    | none => Json.str "0x0"
  | _ => Json.str "0x0"

/-- JS `s.startsWith("0x")`: the first two characters are `0` and `x`. -/
def startsWith0x (s : String) : Bool :=
  match s.data with
  | '0' :: 'x' :: _ => true
  | _ => false

/-- The gas parse in `handlePayload`: a string starting with `"0x"` goes
through `parseInt(s, 16)`, any other string through `parseInt(s, 10)`, a
number is used as-is, anything else becomes `0`.  Note: the surrounding
`try/catch` in the source sets `gasUsed = 0` on exception, but `parseInt`
never throws — it returns `NaN` — so the catch arm is unreachable. -/
def parseGasUsed : Json → JsNum
  | Json.str s => if startsWith0x s then parseIntJS 16 s else parseIntJS 10 s
  | Json.num k => k
  | _ => JsNum.int 0

/-- Parsed gas value of a payload. -/
def payloadGas (p : List (String × Json)) : JsNum :=
  parseGasUsed (payloadGasRaw p)

/-- `transactions.length` of a payload. -/
def payloadTxLen (p : List (String × Json)) : Nat :=
  (payloadTransactions p).length

/-! ## Block Aggregator state (`FlashblocksStreamReader` fields, send-transaction.ts:372-389) -/

/-- One entry of the `blockData` map: payload count, additive transaction
count, and max-reduced (NaN-propagating) cumulative gas. -/
structure BlockAgg : Type where
  payloadCount : Nat
  txCount : Nat
  gasUsed : JsNum
  deriving DecidableEq, Repr

/-- Which decoder succeeded on a frame (`DecodeResult["method"]`). -/
inductive DecodeMethod : Type
  | utf8json : DecodeMethod
  | gzip : DecodeMethod
  | zlib : DecodeMethod
  | brotli : DecodeMethod
  deriving DecidableEq, Repr

/-- A successful frame decode: the JSON text plus the method that produced it. -/
structure DecodeResult : Type where
  jsonText : String
  method : DecodeMethod
  deriving DecidableEq, Repr

/-- The per-method decode counters of the reader. -/
structure DecodeCounts : Type where
  utf8json : Nat
  gzip : Nat
  zlib : Nat
  brotli : Nat
  deriving DecidableEq, Repr

/-- `this.decodeCounts[decoded.method]++`. -/
def bumpCount (dc : DecodeCounts) : DecodeMethod → DecodeCounts
  | DecodeMethod.utf8json => { dc with utf8json := dc.utf8json + 1 }
  | DecodeMethod.gzip => { dc with gzip := dc.gzip + 1 }
  | DecodeMethod.zlib => { dc with zlib := dc.zlib + 1 }
  | DecodeMethod.brotli => { dc with brotli := dc.brotli + 1 }

/-- Mutable fields of `FlashblocksStreamReader` relevant to frame and
payload accounting.  `blocksSeen` models the JS `Set` as a duplicate-free
list in insertion order; `blockData` models the JS `Map` as an
association list in insertion order. -/
structure ReaderState : Type where
  framesReceived : Nat
  payloadsReceived : Nat
  decodeCounts : DecodeCounts
  blocksSeen : List JsNum
  payloadTimes : List Nat
  blockData : List (JsNum × BlockAgg)
  lastMessageAt : Option Nat
  deriving Repr

/-- The reader's initial statistics (all counters zero, containers empty). -/
def initReaderState : ReaderState :=
  { framesReceived := 0
    payloadsReceived := 0
    decodeCounts := { utf8json := 0, gzip := 0, zlib := 0, brotli := 0 }
    blocksSeen := []
    payloadTimes := []
    blockData := []
    lastMessageAt := none }

/-- Association-list lookup, modelling `Map.get`. -/
def alookup {β : Type} : List (JsNum × β) → JsNum → Option β
  | [], _ => none
  | (k, v) :: rest, q => if k = q then some v else alookup rest q

/-- Association-list update, modelling `Map.set`: replaces the value in
place if the key is present, otherwise appends the binding. -/
def aset {β : Type} : List (JsNum × β) → JsNum → β → List (JsNum × β)
  | [], q, v => [(q, v)]
  | (k, w) :: rest, q, v =>
    if k = q then (q, v) :: rest else (k, w) :: aset rest q v

/-- JS `Set.add`: append the element unless already present. -/
def addSeen (l : List JsNum) (k : JsNum) : List JsNum :=
  if k ∈ l then l else l ++ [k]

/-- The in-place mutation of one `blockData` entry:
`bd.payloadCount++; bd.txCount += txCount; bd.gasUsed = Math.max(bd.gasUsed, gasUsed)`. -/
def stepAgg (bd : BlockAgg) (txLen : Nat) (gas : JsNum) : BlockAgg :=
  { payloadCount := bd.payloadCount + 1
    txCount := bd.txCount + txLen
    gasUsed := jsMax bd.gasUsed gas }

/-- `handlePayload` (send-transaction.ts:532-589): bump the payload
counter, record the arrival time, and — when the payload carries a block
number — fold it into `blocksSeen` and `blockData`.  The source first
inserts a zero entry when the key is absent and then mutates it, which
nets to updating `(lookup).getD zero`. -/
def handlePayload (st : ReaderState) (p : List (String × Json)) (t : Nat) : ReaderState :=
  let txLen := payloadTxLen p
  let gas := payloadGas p
  let st1 := { st with
    payloadsReceived := st.payloadsReceived + 1
    payloadTimes := st.payloadTimes ++ [t] }
  match payloadBlockNumber p with
  | none => st1
  | some k =>
    let old := (alookup st1.blockData k).getD
      { payloadCount := 0, txCount := 0, gasUsed := JsNum.int 0 }
    { st1 with
      blocksSeen := addSeen st1.blocksSeen k
      blockData := aset st1.blockData k (stepAgg old txLen gas) }

/-- Fold a sequence of payloads through `handlePayload` (arrival times are
irrelevant to the per-block aggregates; they only extend `payloadTimes`). -/
def processPayloads (st : ReaderState) (ps : List (List (String × Json))) : ReaderState :=
  ps.foldl (fun s p => handlePayload s p 0) st

/-! ## Frame Decoder (send-transaction.ts:282-337) -/

/-- External capabilities used by the decoder.  `utf8` models
`Buffer.toString("utf8")` (total in JS, with replacement characters),
`parseJson` models `JSON.parse` returning `undefined` on a syntax error
(`safeJsonParse`), and the three decompressors model the `node:zlib`
functions, `none` standing for a thrown exception. -/
structure WireCodec : Type where
  utf8 : List Nat → String
  parseJson : String → Option Json
  gunzip : List Nat → Option (List Nat)
  inflate : List Nat → Option (List Nat)
  brotli : List Nat → Option (List Nat)

/-- JS `String.prototype.trim`: drop whitespace from both ends. -/
def jsTrim (s : String) : String :=
  String.mk (((s.data.dropWhile isJsSpace).reverse.dropWhile isJsSpace).reverse)

/-- `tryDecodeJsonFromBuffer`: decode the buffer as UTF-8, trim it, and
return the trimmed text iff it parses as JSON. -/
def tryDecodeJsonFromBuffer (c : WireCodec) (buf : List Nat) : Option String :=
  let text := jsTrim (c.utf8 buf)
  if (c.parseJson text).isSome then some text else none

/-- The gzip arm of `tryDecompressAndDecodeJson`: magic bytes `1F 8B`,
then `gunzipSync` and JSON re-validation.  The `if (text)` guard in the
source is JS truthiness, so an empty decoded text also falls through. -/
def gzipAttempt (c : WireCodec) (buf : List Nat) : Option DecodeResult :=
  if 2 ≤ buf.length ∧ buf.getD 0 0 = 0x1f ∧ buf.getD 1 0 = 0x8b then
    match c.gunzip buf with
    | some out =>
      match tryDecodeJsonFromBuffer c out with
      | some t => if t = "" then none else some { jsonText := t, method := DecodeMethod.gzip }
      | none => none
    | none => none
  else none

/-- The zlib arm: leading byte `0x78`, then `inflateSync` and JSON
re-validation. -/
def zlibAttempt (c : WireCodec) (buf : List Nat) : Option DecodeResult :=
  if 2 ≤ buf.length ∧ buf.getD 0 0 = 0x78 then
    match c.inflate buf with
    | some out =>
      match tryDecodeJsonFromBuffer c out with
      | some t => if t = "" then none else some { jsonText := t, method := DecodeMethod.zlib }
      | none => none
    | none => none
  else none

/-- The Brotli arm: no magic-byte guard, attempted on any buffer. -/
def brotliAttempt (c : WireCodec) (buf : List Nat) : Option DecodeResult :=
  match c.brotli buf with
  | some out =>
    match tryDecodeJsonFromBuffer c out with
    | some t => if t = "" then none else some { jsonText := t, method := DecodeMethod.brotli }
    | none => none
  | none => none

/-- `tryDecompressAndDecodeJson` (send-transaction.ts:289-322): gzip arm,
then zlib arm, then the unconditional Brotli fallback. -/
def tryDecompressAndDecodeJson (c : WireCodec) (buf : List Nat) : Option DecodeResult :=
  match gzipAttempt c buf with
  | some r => some r
  | none =>
    match zlibAttempt c buf with
    | some r => some r
    | none => brotliAttempt c buf

/-- `decodeWsFrameToJsonText` (send-transaction.ts:324-337): direct UTF-8
JSON first (regardless of the text/binary flag; the `if (direct)` guard is
truthiness, so an empty text also falls through), then — binary frames
only — the decompression chain. -/
def decodeWsFrameToJsonText (c : WireCodec) (buf : List Nat) (isBinary : Bool) : Option DecodeResult :=
  match tryDecodeJsonFromBuffer c buf with
  | some t =>
    if t = "" then
      if isBinary then tryDecompressAndDecodeJson c buf else none
    else some { jsonText := t, method := DecodeMethod.utf8json }
  | none => if isBinary then tryDecompressAndDecodeJson c buf else none

/-- The `ws.on("message")` handler (send-transaction.ts:471-514): record
the arrival time, bump the raw frame counter, decode; on success bump the
method counter, re-parse, and fold the payload or payload batch through
`handlePayload`, skipping falsy parses, nested arrays and non-object
batch items. -/
def onMessage (c : WireCodec) (st : ReaderState) (data : List Nat) (isBinary : Bool) (t : Nat) :
    ReaderState :=
  let st1 := { st with
    lastMessageAt := some t
    framesReceived := st.framesReceived + 1 }
  match decodeWsFrameToJsonText c data isBinary with
  | none => st1
  | some res =>
    let st2 := { st1 with decodeCounts := bumpCount st1.decodeCounts res.method }
    match c.parseJson res.jsonText with
    | none => st2
    | some j =>
      if jsFalsy j then st2
      else
        match j with
        | Json.arr items =>
          items.foldl
            (fun s item =>
              match item with
              | Json.obj fields => handlePayload s fields t
              | _ => s)
            st2
        | Json.obj fields => handlePayload st2 fields t
        | _ => st2

/-- A whole run of inbound frames from the initial state. -/
def processRun (c : WireCodec) (msgs : List (List Nat × Bool × Nat)) : ReaderState :=
  msgs.foldl (fun s m => onMessage c s m.1 m.2.1 m.2.2) initReaderState

/-! ## Confirmation Poller (`waitForReceipt`, time_fb_txns.ts:114-135 and
send-transaction.ts:850-877; both variants run the same loop) -/

/-- Outcome of the polling loop.  `timeoutErr` carries the elapsed
duration interpolated into the thrown message
(`Timeout waiting for receipt ... waited N ms`); `confirmed` carries the
receipt and the elapsed time at which it was observed. -/
inductive PollResult (α : Type) : Type
  | timeoutErr (elapsedMs : Nat) : PollResult α
  | confirmed (receipt : α) (elapsedMs : Nat) : PollResult α
  | outOfFuel : PollResult α
  deriving DecidableEq, Repr

/-- The `while (true)` polling loop with explicit fuel.  Iteration `k`
reads the wall clock (`clock k` models `Date.now() - startMs` at the
start of the k-th iteration), throws when `elapsed > timeoutMs` (strict),
otherwise performs one `getTransactionReceipt` lookup (`getReceipt k`,
`none` modelling the thrown "not found" condition) and on failure sleeps
one poll interval and loops. -/
def waitForReceipt {α : Type} (getReceipt : Nat → Option α) (clock : Nat → Nat)
    (timeoutMs : Nat) : Nat → Nat → PollResult α
  | 0, _ => PollResult.outOfFuel
  | fuel + 1, k =>
    let elapsed := clock k
    if timeoutMs < elapsed then PollResult.timeoutErr elapsed
    else
      match getReceipt k with
      | some r => PollResult.confirmed r elapsed
      | none => waitForReceipt getReceipt clock timeoutMs fuel (k + 1)

/-- The receipt oracle of an endpoint that never returns a receipt. -/
def neverReceipt : Nat → Option Unit := fun _ => none

/-! ## Stream Session Controller (`listen` tick, send-transaction.ts:441-469) -/

/-- Decision taken by one execution of the 250ms `tick` timer. -/
inductive TickDecision : Type
  | stopDuration : TickDecision
  | stopInactivity : TickDecision
  | keepGoing : TickDecision
  deriving DecidableEq, Repr

/-- Inputs read by `tick`: the optional fixed run duration, the listen
start time, the last-message timestamp, the inactivity timeout and the
payload counter. -/
structure TickState : Type where
  durationMs : Option Nat
  startedAt : Nat
  lastMessageAt : Option Nat
  timeoutMs : Nat
  payloadsReceived : Nat
  deriving Repr

/-- `this.lastMessageAt ? t - this.lastMessageAt : 0` — note the JS
truthiness: both `null` and a zero timestamp yield `0`. -/
def inactiveFor (lastMessageAt : Option Nat) (t : Nat) : Nat :=
  match lastMessageAt with
  | some m => if m = 0 then 0 else t - m
  | none => 0

/-- One execution of `tick` at wall-clock time `t`: the duration check
runs first and ignores traffic entirely; the inactivity check fires only
while `payloadsReceived === 0`; otherwise the timer re-arms. -/
def tick (st : TickState) (t : Nat) : TickDecision :=
  let inact := inactiveFor st.lastMessageAt t
  let ranFor := t - st.startedAt
  match st.durationMs with
  | some d =>
    if d ≤ ranFor then TickDecision.stopDuration
    else if st.timeoutMs ≤ inact ∧ st.payloadsReceived = 0 then TickDecision.stopInactivity
    else TickDecision.keepGoing
  | none =>
    if st.timeoutMs ≤ inact ∧ st.payloadsReceived = 0 then TickDecision.stopInactivity
    else TickDecision.keepGoing

/-- The timer cadence of `listen` for a run in which no payload ever
arrives: `tick` fires at `startedAt + 250 * k` for `k = 1, 2, ...`
(`setTimeout(tick, 250)` re-armed from each non-stopping tick), over the
constant state `durationMs = none`, `lastMessageAt = startedAt`,
`payloadsReceived = 0`.  Returns the wall-clock stop time. -/
def idleLoop (s timeoutMs : Nat) (k : Nat) : Nat → Option Nat
  | 0 => none
  | fuel + 1 =>
    let t := s + 250 * k
    match tick { durationMs := none, startedAt := s, lastMessageAt := some s,
                 timeoutMs := timeoutMs, payloadsReceived := 0 } t with
    | TickDecision.keepGoing => idleLoop s timeoutMs (k + 1) fuel
    | _ => some t

/-! ## Summary statistics (time_fb_txns.ts:198-204, send-transaction.ts:1091-1097) -/

/-- The aggregate figures printed in the run summary.  JS float
arithmetic on the average is modelled exactly over `ℚ` (the samples are
integral millisecond counts). -/
structure SummaryStats : Type where
  avgMs : ℚ
  p50 : Int
  p90 : Int
  maxMs : Int
  deriving DecidableEq, Repr

/-- `allMs.sort((a, b) => a - b)` followed by the positional reads
`allMs[Math.floor(allMs.length * 0.5)] ?? 0`,
`allMs[Math.floor(allMs.length * 0.9)] ?? 0`, `allMs[allMs.length - 1] ?? 0`
and `reduce(+) / Math.max(1, allMs.length)`.  For the reachable sample
counts (`txCount` is clamped to 10000) the float products `n * 0.5` and
`n * 0.9` floor to `n / 2` and `n * 9 / 10` exactly. -/
def summaryStats (allMs : List Int) : SummaryStats :=
  let sorted := allMs.insertionSort (fun a b => a ≤ b)
  let n := sorted.length
  { avgMs := (sorted.sum : ℚ) / (max 1 n : ℚ)
    p50 := sorted.getD (n / 2) 0
    p90 := sorted.getD (n * 9 / 10) 0
    maxMs := sorted.getD (n - 1) 0 }

/-! ## Sequential nonce fetches (`sendOneTx`, time_fb_txns.ts:137-155 and
send-transaction.ts:879-940, plus the `main` submission loop) -/

/-- Modelled environment for the nonce claim, capturing its hypotheses:
the account's pending transaction count as seen by the submission RPC.
"No external party uses the account" means only this run's broadcasts
change it; "the pending view reflects every previously broadcast
transaction" means a broadcast increments it immediately. -/
structure ChainState : Type where
  pendingNonce : Nat
  deriving DecidableEq, Repr

/-- `getTransactionCount({ address, blockTag: "pending" })`. -/
def getTransactionCount (c : ChainState) : Nat :=
  c.pendingNonce

/-- A successful `sendTransaction` broadcast, as observed by the pending
view under the claim's hypotheses. -/
def broadcastTx (c : ChainState) : ChainState :=
  { pendingNonce := c.pendingNonce + 1 }

/-- `sendOneTx`: re-fetch the nonce against the pending view immediately
before the send, then broadcast with that nonce.  Returns the nonce used. -/
def sendOneTx (c : ChainState) : Nat × ChainState :=
  (getTransactionCount c, broadcastTx c)

/-- The `main` loop: `txCount` sequential `sendOneTx` calls, collecting
the nonce used by each submission in order. -/
def runTxLoop : Nat → ChainState → List Nat × ChainState
  | 0, c => ([], c)
  | n + 1, c =>
    let r := sendOneTx c
    let rest := runTxLoop n r.2
    (r.1 :: rest.1, rest.2)

/-! ## Helper lemmas -/

theorem alookup_aset_self {β : Type} (l : List (JsNum × β)) (k : JsNum) (v : β) :
    alookup (aset l k v) k = some v := by
  induction l with
  | nil => simp [aset, alookup]
  | cons hd tl ih =>
    by_cases h : hd.1 = k
    · simp [aset, alookup, h]
    · simp [aset, alookup, h, ih]

theorem alookup_aset_ne {β : Type} (l : List (JsNum × β)) (k q : JsNum) (v : β)
    (h : q ≠ k) : alookup (aset l k v) q = alookup l q := by
  have hkq : ¬(k = q) := fun hh => h hh.symm
  induction l with
  | nil => simp [aset, alookup, hkq]
  | cons hd tl ih =>
    obtain ⟨k1, v1⟩ := hd
    by_cases hk : k1 = k
    · subst hk
      simp [aset, alookup, hkq]
    · simp [aset, alookup, hk, ih]

theorem mem_keys_aset {β : Type} (l : List (JsNum × β)) (k q : JsNum) (v : β) :
    q ∈ (aset l k v).map Prod.fst ↔ q = k ∨ q ∈ l.map Prod.fst := by
  induction l with
  | nil => simp [aset]
  | cons hd tl ih =>
    obtain ⟨k1, v1⟩ := hd
    by_cases hk : k1 = k
    · subst hk
      have hset : aset ((k1, v1) :: tl) k1 v = (k1, v) :: tl := by simp [aset]
      rw [hset]
      simp only [List.map_cons, List.mem_cons]
      tauto
    · have hset : aset ((k1, v1) :: tl) k v = (k1, v1) :: aset tl k v := by simp [aset, hk]
      rw [hset]
      simp only [List.map_cons, List.mem_cons, ih]
      tauto

theorem nodup_keys_aset {β : Type} (l : List (JsNum × β)) (k : JsNum) (v : β)
    (h : (l.map Prod.fst).Nodup) : ((aset l k v).map Prod.fst).Nodup := by
  induction l with
  | nil => simp [aset]
  | cons hd tl ih =>
    obtain ⟨k1, v1⟩ := hd
    simp only [List.map_cons, List.nodup_cons] at h
    by_cases hk : k1 = k
    · subst hk
      have hset : aset ((k1, v1) :: tl) k1 v = (k1, v) :: tl := by simp [aset]
      rw [hset]
      simp only [List.map_cons, List.nodup_cons]
      exact h
    · have hset : aset ((k1, v1) :: tl) k v = (k1, v1) :: aset tl k v := by simp [aset, hk]
      rw [hset]
      simp only [List.map_cons, List.nodup_cons]
      refine ⟨?_, ih h.2⟩
      intro hmem
      rcases (mem_keys_aset tl k k1 v).mp hmem with h1 | h2
      · exact hk h1
      · exact h.1 h2

theorem mem_addSeen (l : List JsNum) (k q : JsNum) :
    q ∈ addSeen l k ↔ q ∈ l ∨ q = k := by
  by_cases h : k ∈ l
  · simp [addSeen, h]
    intro hq
    subst hq
    exact h
  · simp [addSeen, h]

theorem nodup_addSeen (l : List JsNum) (k : JsNum) (h : l.Nodup) :
    (addSeen l k).Nodup := by
  by_cases hk : k ∈ l
  · simpa [addSeen, hk] using h
  · simp [addSeen, hk, List.nodup_append, h]

theorem handlePayload_eq_some (st : ReaderState) (p : List (String × Json)) (t : Nat)
    (k : JsNum) (hp : payloadBlockNumber p = some k) :
    handlePayload st p t =
      { st with
        payloadsReceived := st.payloadsReceived + 1
        payloadTimes := st.payloadTimes ++ [t]
        blocksSeen := addSeen st.blocksSeen k
        blockData := aset st.blockData k
          (stepAgg ((alookup st.blockData k).getD
            { payloadCount := 0, txCount := 0, gasUsed := JsNum.int 0 })
            (payloadTxLen p) (payloadGas p)) } := by
  simp [handlePayload, hp]

theorem handlePayload_eq_none (st : ReaderState) (p : List (String × Json)) (t : Nat)
    (hp : payloadBlockNumber p = none) :
    handlePayload st p t =
      { st with
        payloadsReceived := st.payloadsReceived + 1
        payloadTimes := st.payloadTimes ++ [t] } := by
  simp [handlePayload, hp]

theorem foldl_jsMax_int (gs : List Int) :
    ∀ a : Int, (gs.map JsNum.int).foldl jsMax (JsNum.int a) = JsNum.int (gs.foldl max a) := by
  induction gs with
  | nil => intro a; rfl
  | cons g gr ih => intro a; simpa [jsMax] using ih (max a g)

theorem foldl_max_eq_or_mem (gs : List Int) :
    ∀ a : Int, gs.foldl max a = a ∨ gs.foldl max a ∈ gs := by
  induction gs with
  | nil => intro a; simp
  | cons x xs ih =>
    intro a
    rcases ih (max a x) with h | h
    · rcases max_cases a x with ⟨he, _⟩ | ⟨he, _⟩
      · left
        rw [List.foldl_cons, h, he]
      · right
        rw [List.foldl_cons, h, he]
        exact List.mem_cons_self x xs
    · right
      rw [List.foldl_cons]
      exact List.mem_cons_of_mem x h

theorem le_foldl_max (gs : List Int) :
    ∀ a : Int, a ≤ gs.foldl max a ∧ ∀ g ∈ gs, g ≤ gs.foldl max a := by
  induction gs with
  | nil => intro a; simp
  | cons x xs ih =>
    intro a
    obtain ⟨h1, h2⟩ := ih (max a x)
    rw [List.foldl_cons]
    refine ⟨le_trans (le_max_left a x) h1, ?_⟩
    intro y hy
    rcases List.mem_cons.mp hy with hy | hy
    · subst hy
      exact le_trans (le_max_right a y) h1
    · exact h2 y hy

theorem processPayloads_entry (k : JsNum) (ps : List (List (String × Json))) :
    ∀ (st : ReaderState) (bd : BlockAgg),
      (∀ p ∈ ps, payloadBlockNumber p = some k) →
      alookup st.blockData k = some bd →
      alookup (processPayloads st ps).blockData k =
        some { payloadCount := bd.payloadCount + ps.length
               txCount := bd.txCount + (ps.map payloadTxLen).sum
               gasUsed := (ps.map payloadGas).foldl jsMax bd.gasUsed } := by
  induction ps with
  | nil =>
    intro st bd _ hl
    simpa [processPayloads] using hl
  | cons p rest ih =>
    intro st bd hb hl
    have hp : payloadBlockNumber p = some k := hb p (List.mem_cons_self p rest)
    have hstep := handlePayload_eq_some st p 0 k hp
    have hrest : ∀ q ∈ rest, payloadBlockNumber q = some k :=
      fun q hq => hb q (List.mem_cons_of_mem p hq)
    have hl2 : alookup (handlePayload st p 0).blockData k =
        some (stepAgg bd (payloadTxLen p) (payloadGas p)) := by
      rw [hstep]
      simp only [hl, Option.getD_some]
      exact alookup_aset_self _ _ _
    have hfold : processPayloads st (p :: rest) = processPayloads (handlePayload st p 0) rest := by
      simp [processPayloads]
    rw [hfold]
    have := ih (handlePayload st p 0) (stepAgg bd (payloadTxLen p) (payloadGas p)) hrest hl2
    rw [this]
    simp [stepAgg]
    constructor
    · omega
    · omega

/-! ## Claim theorems -/

/-- C1: for every non-empty sequence of payloads carrying the same block
number, folded into a state with no aggregate for that block yet, the
resulting Block Aggregate has gas-used equal to the maximum of the
individual (integral, non-negative) payload gas values — never their sum —
transaction count equal to the sum of the payloads' transaction-list
lengths, and payload count equal to the number of payloads folded in. -/
theorem block_aggregate_fold (k : JsNum) (ps : List (List (String × Json)))
    (st : ReaderState) (gs : List Int)
    (hne : ps ≠ [])
    (hb : ∀ p ∈ ps, payloadBlockNumber p = some k)
    (hg : ps.map payloadGas = gs.map JsNum.int)
    (hnn : ∀ g ∈ gs, 0 ≤ g)
    (h0 : alookup st.blockData k = none) :
    alookup (processPayloads st ps).blockData k =
      some { payloadCount := ps.length
             txCount := (ps.map payloadTxLen).sum
             gasUsed := JsNum.int (gs.foldl max 0) }
    ∧ gs.foldl max 0 ∈ gs
    ∧ ∀ g ∈ gs, g ≤ gs.foldl max 0 := by
  match ps, hne with
  | p :: rest, _ =>
    match gs, hg with
    | g :: gr, hg =>
      simp only [List.map_cons, List.cons.injEq] at hg
      obtain ⟨hgp, hgr⟩ := hg
      have hp : payloadBlockNumber p = some k := hb p (List.mem_cons_self p rest)
      have hrest : ∀ q ∈ rest, payloadBlockNumber q = some k :=
        fun q hq => hb q (List.mem_cons_of_mem p hq)
      have hstep := handlePayload_eq_some st p 0 k hp
      have hl2 : alookup (handlePayload st p 0).blockData k =
          some { payloadCount := 1, txCount := payloadTxLen p
                 gasUsed := jsMax (JsNum.int 0) (payloadGas p) } := by
        rw [hstep]
        simp only [h0, Option.getD_none]
        simpa [stepAgg] using alookup_aset_self st.blockData k _
      have hfold : processPayloads st (p :: rest) = processPayloads (handlePayload st p 0) rest := by
        simp [processPayloads]
      have hmain := processPayloads_entry k rest (handlePayload st p 0) _ hrest hl2
      rw [hfold, hmain]
      have hgas : (rest.map payloadGas).foldl jsMax (jsMax (JsNum.int 0) (payloadGas p)) =
          JsNum.int ((g :: gr).foldl max 0) := by
        rw [hgp, hgr]
        have : jsMax (JsNum.int 0) (JsNum.int g) = JsNum.int (max 0 g) := rfl
        rw [this, foldl_jsMax_int gr (max 0 g)]
        rfl
      have hmem : (g :: gr).foldl max 0 ∈ g :: gr := by
        rcases foldl_max_eq_or_mem (g :: gr) 0 with h | h
        · rw [h]
          have hg0 : 0 ≤ g := hnn g (List.mem_cons_self g gr)
          have hgle : g ≤ (g :: gr).foldl max 0 :=
            (le_foldl_max (g :: gr) 0).2 g (List.mem_cons_self g gr)
          rw [h] at hgle
          have : g = 0 := le_antisymm hgle hg0
          rw [← this]
          exact List.mem_cons_self g gr
        · exact h
      refine ⟨?_, hmem, (le_foldl_max (g :: gr) 0).2⟩
      rw [hgas]
      simp
      omega

/-- Concrete payloads for the worked example in the spec: gas values
`0x64`, `0x32`, `0xc8` and transaction-list lengths 2, 0, 3 for block 100. -/
def examplePayloads : List (List (String × Json)) :=
  [[("metadata", Json.obj [("block_number", Json.num (JsNum.int 100))]),
    ("diff", Json.obj [("transactions", Json.arr [Json.str "a", Json.str "b"]),
                       ("gas_used", Json.str "0x64")])],
   [("metadata", Json.obj [("block_number", Json.num (JsNum.int 100))]),
    ("diff", Json.obj [("transactions", Json.arr []),
                       ("gas_used", Json.str "0x32")])],
   [("metadata", Json.obj [("block_number", Json.num (JsNum.int 100))]),
    ("diff", Json.obj [("transactions", Json.arr [Json.str "c", Json.str "d", Json.str "e"]),
                       ("gas_used", Json.str "0xc8")])]]

theorem block_aggregate_fold_witness :
    alookup (processPayloads initReaderState examplePayloads).blockData (JsNum.int 100) =
      some { payloadCount := 3, txCount := 5, gasUsed := JsNum.int 200 }
    ∧ ((200 : Int) ∈ [(100 : Int), 50, 200] ∧ ∀ g ∈ [(100 : Int), 50, 200], g ≤ 200) := by
  have h := block_aggregate_fold (JsNum.int 100) examplePayloads initReaderState
    [100, 50, 200] (by simp [examplePayloads])
    (by
      intro p hp
      simp only [examplePayloads, List.mem_cons, List.not_mem_nil, or_false] at hp
      rcases hp with rfl | rfl | rfl <;> rfl)
    rfl (by decide) rfl
  refine ⟨?_, ?_, ?_⟩
  · exact h.1
  · exact h.2.1
  · exact h.2.2

/-- A payload whose `diff.gas_used` is the string `"garbage"`, which
`parseInt` cannot parse under either radix. -/
def gasNaNPayload : List (String × Json) :=
  [("payload_id", Json.str "p1"),
   ("metadata", Json.obj [("block_number", Json.num (JsNum.int 5))]),
   ("diff", Json.obj [("transactions", Json.arr []), ("gas_used", Json.str "garbage")])]

/-- C6: the gas parse accepts a `0x`-prefixed hexadecimal string, a
decimal string, and a numeric value (first three conjuncts), and
processing an unparseable gas value is non-fatal — but the value folded
into the aggregate is `NaN`, not zero: `parseInt` returns `NaN` rather
than throwing, so the `catch { gasUsed = 0 }` arm never runs, and
`Math.max` then propagates `NaN` into (and keeps it in) the block's
gas-used aggregate.  The last two conjuncts evaluate the code at the
failing input, refuting the "treated as zero" half of the claim. -/
theorem gas_parse_accepts_and_nan_fold :
    parseGasUsed (Json.str "0x64") = JsNum.int 100
    ∧ parseGasUsed (Json.str "100") = JsNum.int 100
    ∧ parseGasUsed (Json.num (JsNum.int 7)) = JsNum.int 7
    ∧ parseGasUsed (Json.str "garbage") = JsNum.nan
    ∧ (handlePayload initReaderState gasNaNPayload 0).blockData =
        [(JsNum.int 5, { payloadCount := 1, txCount := 0, gasUsed := JsNum.nan })]
    ∧ jsMax JsNum.nan (JsNum.int 1000000) = JsNum.nan :=
  ⟨rfl, rfl, rfl, rfl, rfl, rfl⟩

/-- C7: an inbound frame that decodes under no known format leaves every
statistic except the raw frame counter (and the last-message timestamp)
unchanged: the payload counter, all four decode-method counters, the
blocks seen, the payload times and the per-block aggregates are exactly
those of the pre-frame state, and handling is total (never fatal). -/
theorem undecodable_frame_dropped (c : WireCodec) (st : ReaderState)
    (data : List Nat) (isBinary : Bool) (t : Nat)
    (h : decodeWsFrameToJsonText c data isBinary = none) :
    onMessage c st data isBinary t =
      { st with framesReceived := st.framesReceived + 1, lastMessageAt := some t } := by
  simp [onMessage, h]

/-- A codec on which nothing decodes: `JSON.parse` always fails and every
decompressor throws. -/
def failCodec : WireCodec :=
  { utf8 := fun _ => "x"
    parseJson := fun _ => none
    gunzip := fun _ => none
    inflate := fun _ => none
    brotli := fun _ => none }

theorem undecodable_frame_dropped_witness :
    decodeWsFrameToJsonText failCodec [0] true = none
    ∧ onMessage failCodec initReaderState [0] true 5 =
        { initReaderState with framesReceived := 1, lastMessageAt := some 5 } :=
  ⟨rfl, undecodable_frame_dropped failCodec initReaderState [0] true 5 rfl⟩

/-- C2: a JSON document `doc` is accepted by the Frame Decoder whether
delivered as a raw UTF-8 text frame (first conjunct, for either
text/binary marking), as a binary gzip frame with magic `1F 8B`, as a
binary zlib frame with leading byte `0x78`, or as a binary Brotli frame
— in all four cases the decoded JSON text is the identical `doc`, hence
the parsed output is identical — and whenever neither the gzip arm nor
the zlib arm produced a result (magic byte absent or decompression /
validation failed), Brotli decompression is attempted unconditionally as
the fallback (fourth conjunct). -/
theorem frame_decoder_formats (c : WireCodec) (doc : String) (hdoc : doc ≠ "") :
    (∀ (buf : List Nat) (isBinary : Bool),
       tryDecodeJsonFromBuffer c buf = some doc →
       decodeWsFrameToJsonText c buf isBinary =
         some { jsonText := doc, method := DecodeMethod.utf8json })
    ∧ (∀ buf out : List Nat,
         2 ≤ buf.length → buf.getD 0 0 = 0x1f → buf.getD 1 0 = 0x8b →
         tryDecodeJsonFromBuffer c buf = none →
         c.gunzip buf = some out →
         tryDecodeJsonFromBuffer c out = some doc →
         decodeWsFrameToJsonText c buf true =
           some { jsonText := doc, method := DecodeMethod.gzip })
    ∧ (∀ buf out : List Nat,
         2 ≤ buf.length → buf.getD 0 0 = 0x78 →
         tryDecodeJsonFromBuffer c buf = none →
         c.inflate buf = some out →
         tryDecodeJsonFromBuffer c out = some doc →
         decodeWsFrameToJsonText c buf true =
           some { jsonText := doc, method := DecodeMethod.zlib })
    ∧ (∀ buf : List Nat,
         gzipAttempt c buf = none → zlibAttempt c buf = none →
         tryDecompressAndDecodeJson c buf = brotliAttempt c buf)
    ∧ (∀ buf out : List Nat,
         tryDecodeJsonFromBuffer c buf = none →
         gzipAttempt c buf = none → zlibAttempt c buf = none →
         c.brotli buf = some out →
         tryDecodeJsonFromBuffer c out = some doc →
         decodeWsFrameToJsonText c buf true =
           some { jsonText := doc, method := DecodeMethod.brotli }) := by
  refine ⟨?_, ?_, ?_, ?_, ?_⟩
  · intro buf isBinary hdirect
    simp [decodeWsFrameToJsonText, hdirect, hdoc]
  · intro buf out hlen h0 h1 hdirect hgz hout
    simp at h0 h1
    simp [decodeWsFrameToJsonText, hdirect, tryDecompressAndDecodeJson, gzipAttempt,
      hlen, h0, h1, hgz, hout, hdoc]
  · intro buf out hlen h0 hdirect hinf hout
    simp at h0
    have hgz : gzipAttempt c buf = none := by
      simp [gzipAttempt, h0]
    simp [decodeWsFrameToJsonText, hdirect, tryDecompressAndDecodeJson, hgz, zlibAttempt,
      hlen, h0, hinf, hout, hdoc]
  · intro buf hgz hzl
    simp [tryDecompressAndDecodeJson, hgz, hzl]
  · intro buf out hdirect hgz hzl hbr hout
    simp [decodeWsFrameToJsonText, hdirect, tryDecompressAndDecodeJson, hgz, hzl,
      brotliAttempt, hbr, hout, hdoc]

/-- A concrete codec for exercising all four decoder formats on the
document `"42"`: the bytes `[52, 50]` are its UTF-8 form, `[31, 139, 1]`
gunzips to it, `[120, 1]` inflates to it, and `[7, 7]` Brotli-decompresses
to it; everything else fails. -/
def fourWayCodec : WireCodec :=
  { utf8 := fun b => if b = [52, 50] then "42" else "x"
    parseJson := fun s => if s = "42" then some (Json.num (JsNum.int 42)) else none
    gunzip := fun b => if b = [31, 139, 1] then some [52, 50] else none
    inflate := fun b => if b = [120, 1] then some [52, 50] else none
    brotli := fun b => if b = [7, 7] then some [52, 50] else none }

theorem frame_decoder_formats_witness :
    decodeWsFrameToJsonText fourWayCodec [52, 50] false =
      some { jsonText := "42", method := DecodeMethod.utf8json }
    ∧ decodeWsFrameToJsonText fourWayCodec [31, 139, 1] true =
        some { jsonText := "42", method := DecodeMethod.gzip }
    ∧ decodeWsFrameToJsonText fourWayCodec [120, 1] true =
        some { jsonText := "42", method := DecodeMethod.zlib }
    ∧ decodeWsFrameToJsonText fourWayCodec [7, 7] true =
        some { jsonText := "42", method := DecodeMethod.brotli } := by
  have h := frame_decoder_formats fourWayCodec "42" (by decide)
  exact ⟨h.1 [52, 50] false rfl,
         h.2.1 [31, 139, 1] [52, 50] (by decide) rfl rfl rfl rfl rfl,
         h.2.2.1 [120, 1] [52, 50] (by decide) rfl rfl rfl rfl,
         h.2.2.2.2 [7, 7] [52, 50] rfl rfl rfl rfl rfl⟩

theorem waitForReceipt_retry_step {α : Type} (g : Nat → Option α) (clock : Nat → Nat)
    (T fuel k : Nat) (hc : clock k ≤ T) (hg : g k = none) :
    waitForReceipt g clock T (fuel + 1) k = waitForReceipt g clock T fuel (k + 1) := by
  simp [waitForReceipt, Nat.not_lt.mpr hc, hg]

theorem waitForReceipt_timeout_step {α : Type} (g : Nat → Option α) (clock : Nat → Nat)
    (T fuel k : Nat) (hc : T < clock k) :
    waitForReceipt g clock T (fuel + 1) k = PollResult.timeoutErr (clock k) := by
  simp [waitForReceipt, hc]

/-- C3: against an endpoint that never returns a receipt, the poller (a)
retries — never fails — at any iteration whose elapsed time is within
the timeout, (b) fails with the error carrying the elapsed duration at
exactly the iterations whose elapsed time strictly exceeds the timeout
(the guard runs before the poll attempt of that iteration), and (c) under
the loop's timing (`elapsed` at iteration `j` is `j` poll-intervals, poll
attempts taking negligible time), a run from the start fails carrying an
elapsed duration that strictly exceeds the timeout by at most one
poll-interval. -/
theorem receipt_poll_timeout (clock : Nat → Nat) (T I : Nat) :
    (∀ fuel k : Nat, clock k ≤ T →
       waitForReceipt neverReceipt clock T (fuel + 1) k =
         waitForReceipt neverReceipt clock T fuel (k + 1))
    ∧ (∀ fuel k : Nat, T < clock k →
         waitForReceipt neverReceipt clock T (fuel + 1) k =
           PollResult.timeoutErr (clock k))
    ∧ (∀ fuel : Nat, (∀ j, clock j = j * I) → 0 < I → T / I + 2 ≤ fuel →
         waitForReceipt neverReceipt clock T fuel 0 =
           PollResult.timeoutErr ((T / I + 1) * I)
         ∧ T < (T / I + 1) * I ∧ (T / I + 1) * I ≤ T + I) := by
  refine ⟨?_, ?_, ?_⟩
  · intro fuel k hc
    exact waitForReceipt_retry_step neverReceipt clock T fuel k hc rfl
  · intro fuel k hc
    exact waitForReceipt_timeout_step neverReceipt clock T fuel k hc
  · intro fuel hclock hI hfuel
    have hup : T < (T / I + 1) * I := by
      have hmod : T % I < I := Nat.mod_lt T hI
      have hdm : I * (T / I) + T % I = T := Nat.div_add_mod T I
      calc T = I * (T / I) + T % I := hdm.symm
        _ < I * (T / I) + I := by omega
        _ = (T / I + 1) * I := by ring
    have hlow : (T / I + 1) * I ≤ T + I := by
      have hd : T / I * I ≤ T := Nat.div_mul_le_self T I
      calc (T / I + 1) * I = T / I * I + I := by ring
        _ ≤ T + I := by omega
    have haux : ∀ fl k : Nat, k ≤ T / I + 1 → T / I + 2 - k ≤ fl →
        waitForReceipt neverReceipt clock T fl k =
          PollResult.timeoutErr ((T / I + 1) * I) := by
      intro fl
      induction fl with
      | zero => intro k hk hf; omega
      | succ n ih =>
        intro k hk hf
        by_cases hke : k = T / I + 1
        · subst hke
          have : T < clock (T / I + 1) := by
            rw [hclock]
            exact hup
          rw [waitForReceipt_timeout_step neverReceipt clock T n _ this, hclock]
        · have hklt : k ≤ T / I := by omega
          have hck : clock k ≤ T := by
            rw [hclock]
            calc k * I ≤ T / I * I := Nat.mul_le_mul_right I hklt
              _ ≤ T := Nat.div_mul_le_self T I
          rw [waitForReceipt_retry_step neverReceipt clock T n k hck rfl]
          exact ih (k + 1) (by omega) (by omega)
    have hf0 : T / I + 2 - 0 ≤ fuel := by omega
    exact ⟨haux fuel 0 (Nat.zero_le _) hf0, hup, hlow⟩

theorem receipt_poll_timeout_witness :
    waitForReceipt neverReceipt (fun j => j * 30) 100 5 0 =
      PollResult.timeoutErr ((100 / 30 + 1) * 30)
    ∧ 100 < (100 / 30 + 1) * 30 ∧ (100 / 30 + 1) * 30 ≤ 100 + 30 :=
  (receipt_poll_timeout (fun j => j * 30) 100 30).2.2 5 (fun j => rfl)
    (by decide) (by decide)

theorem waitForReceipt_timeout_origin {α : Type} (g : Nat → Option α) (clock : Nat → Nat)
    (T : Nat) :
    ∀ fuel k0 e : Nat, waitForReceipt g clock T fuel k0 = PollResult.timeoutErr e →
      ∃ k, k0 ≤ k ∧ e = clock k ∧ T < clock k := by
  intro fuel
  induction fuel with
  | zero =>
    intro k0 e h
    simp [waitForReceipt] at h
  | succ n ih =>
    intro k0 e h
    by_cases hc : T < clock k0
    · rw [waitForReceipt_timeout_step g clock T n k0 hc] at h
      exact ⟨k0, le_refl k0, (PollResult.timeoutErr.injEq _ _).mp h.symm, hc⟩
    · rcases hg : g k0 with _ | r
      · rw [waitForReceipt_retry_step g clock T n k0 (Nat.not_lt.mp hc) hg] at h
        obtain ⟨k, hk, he, hT⟩ := ih (k0 + 1) e h
        exact ⟨k, by omega, he, hT⟩
      · simp [waitForReceipt, hc, hg] at h

/-- C9: the poller always performs at least one receipt lookup before it
can fail with the timeout error.  When the clock reads zero at the first
iteration (the guard compares `Date.now() - startMs` immediately after
`startMs` was taken), the strict comparison against the non-negative
timeout cannot fire, so the first iteration reduces to its receipt lookup
(first conjunct); and any run from the start that ends in the timeout
error must have performed — and seen fail — the first lookup, failing
only at some later iteration whose elapsed reading exceeds the timeout
(second conjunct). -/
theorem receipt_poll_first_lookup {α : Type} (g : Nat → Option α) (clock : Nat → Nat)
    (T : Nat) (h0 : clock 0 = 0) :
    (∀ fuel : Nat,
       waitForReceipt g clock T (fuel + 1) 0 =
         match g 0 with
         | some r => PollResult.confirmed r 0
         | none => waitForReceipt g clock T fuel 1)
    ∧ (∀ fuel e : Nat,
         waitForReceipt g clock T fuel 0 = PollResult.timeoutErr e →
         g 0 = none ∧ ∃ k, 1 ≤ k ∧ e = clock k ∧ T < clock k) := by
  constructor
  · intro fuel
    simp [waitForReceipt, h0]
  · intro fuel e h
    match fuel with
    | 0 => simp [waitForReceipt] at h
    | n + 1 =>
      have hng : ¬(T < clock 0) := by
        rw [h0]
        omega
      rcases hg : g 0 with _ | r
      · rw [waitForReceipt_retry_step g clock T n 0 (Nat.not_lt.mp hng) hg] at h
        obtain ⟨k, hk, he, hT⟩ := waitForReceipt_timeout_origin g clock T n 1 e h
        exact ⟨rfl, k, hk, he, hT⟩
      · simp [waitForReceipt, hng, hg] at h

theorem receipt_poll_first_lookup_witness :
    waitForReceipt (fun _ => (none : Option Unit)) (fun k => k) 0 2 0 =
      PollResult.timeoutErr 1
    ∧ ((fun _ => (none : Option Unit)) 0 = none
       ∧ ∃ k, 1 ≤ k ∧ 1 = k ∧ 0 < k) := by
  constructor
  · rfl
  · have h := (receipt_poll_first_lookup (fun _ => (none : Option Unit))
      (fun k => k) 0 rfl).2 2 1 rfl
    exact h

/-- C4: (i) a duration-configured session stops with the duration
decision at any tick whose run time has reached the duration, whatever
the traffic state (`lastMessageAt`, `payloadsReceived` arbitrary);
(ii) with only an inactivity timeout configured and zero payloads ever
received, the 250ms tick cadence stops the run at a time whose distance
from the start is at least the timeout and less than the timeout plus one
tick period; (iii) once at least one payload has been received, no tick
ever takes the inactivity-stop decision. -/
theorem session_termination :
    (∀ (d s T p t : Nat) (last : Option Nat), d ≤ t - s →
       tick { durationMs := some d, startedAt := s, lastMessageAt := last,
              timeoutMs := T, payloadsReceived := p } t = TickDecision.stopDuration)
    ∧ (∀ s T fuel : Nat, s ≠ 0 → 1 ≤ T → T ≤ 250 * fuel →
         ∃ τ, idleLoop s T 1 fuel = some τ ∧ T ≤ τ - s ∧ τ - s < T + 250)
    ∧ (∀ (st : TickState) (t : Nat), 1 ≤ st.payloadsReceived →
         tick st t ≠ TickDecision.stopInactivity) := by
  refine ⟨?_, ?_, ?_⟩
  · intro d s T p t last hd
    simp [tick, hd]
  · intro s T fuel hs hT
    have haux : ∀ (fl k : Nat), 1 ≤ k → 250 * (k - 1) < T → T ≤ 250 * (k - 1) + 250 * fl →
        ∃ τ, idleLoop s T k fl = some τ ∧ T ≤ τ - s ∧ τ - s < T + 250 := by
      intro fl
      induction fl with
      | zero => intro k hk hlt hle; omega
      | succ n ih =>
        intro k hk hlt hle
        by_cases hstop : T ≤ 250 * k
        · refine ⟨s + 250 * k, ?_, ?_, ?_⟩
          · simp [idleLoop, tick, inactiveFor, hs, hstop]
          · omega
          · omega
        · have hstep : idleLoop s T k (n + 1) = idleLoop s T (k + 1) n := by
            simp [idleLoop, tick, inactiveFor, hs, hstop]
          rw [hstep]
          exact ih (k + 1) (by omega) (by omega) (by omega)
    intro hfuel
    exact haux fuel 1 (by omega) (by omega) (by omega)
  · intro st t hp
    have hp0 : ¬(st.payloadsReceived = 0) := by omega
    rcases hd : st.durationMs with _ | d
    · simp [tick, hd, hp0]
    · simp only [tick, hd, hp0, and_false, if_false]
      split_ifs <;> simp

theorem session_termination_witness :
    tick { durationMs := some 5000, startedAt := 3, lastMessageAt := some 4000,
           timeoutMs := 7, payloadsReceived := 12 } 6000 = TickDecision.stopDuration
    ∧ (∃ τ, idleLoop 1 1000 1 20 = some τ ∧ 1000 ≤ τ - 1 ∧ τ - 1 < 1000 + 250)
    ∧ tick { durationMs := none, startedAt := 0, lastMessageAt := some 1,
             timeoutMs := 5, payloadsReceived := 1 } 99 ≠ TickDecision.stopInactivity := by
  refine ⟨?_, ?_, ?_⟩
  · exact session_termination.1 5000 3 7 12 6000 (some 4000) (by decide)
  · exact session_termination.2.1 1 1000 20 (by decide) (by decide) (by decide)
  · exact session_termination.2.2
      { durationMs := none, startedAt := 0, lastMessageAt := some 1,
        timeoutMs := 5, payloadsReceived := 1 } 99 (by decide)

/-- C5: for any non-empty sample list, the reported statistics are the
deterministic positional reads off the ascending sort: `p50` and `p90`
are the entries of the (unique) sorted arrangement at indices
`floor(n * 0.5)` and `floor(n * 0.9)`, `max` is the last sorted entry —
which is a sample and bounds every sample — and the average is the
arithmetic mean of the samples. -/
theorem summary_stats_positional (allMs s : List Int)
    (hne : allMs ≠ []) (hperm : s.Perm allMs) (hsort : s.Sorted (fun a b => a ≤ b)) :
    (summaryStats allMs).p50 = s.getD (allMs.length / 2) 0
    ∧ (summaryStats allMs).p90 = s.getD (allMs.length * 9 / 10) 0
    ∧ (summaryStats allMs).maxMs = s.getD (allMs.length - 1) 0
    ∧ (summaryStats allMs).maxMs ∈ allMs
    ∧ (∀ x ∈ allMs, x ≤ (summaryStats allMs).maxMs)
    ∧ (summaryStats allMs).avgMs = (allMs.sum : ℚ) / (allMs.length : ℚ) := by
  have hpermSort : List.Perm (allMs.insertionSort (fun a b => a ≤ b)) allMs :=
    List.perm_insertionSort (fun a b => a ≤ b) allMs
  have hsortSort : (allMs.insertionSort (fun a b => a ≤ b)).Sorted (fun a b => a ≤ b) :=
    List.sorted_insertionSort (fun a b => a ≤ b) allMs
  have hs : s = allMs.insertionSort (fun a b => a ≤ b) :=
    List.eq_of_perm_of_sorted (hperm.trans hpermSort.symm) hsort hsortSort
  subst hs
  have hlen : (allMs.insertionSort (fun a b => a ≤ b)).length = allMs.length :=
    hpermSort.length_eq
  have hpos : 0 < allMs.length := List.length_pos.mpr hne
  have hsum : (allMs.insertionSort (fun a b => a ≤ b)).sum = allMs.sum :=
    hpermSort.sum_eq
  have hmaxIdx : allMs.length - 1 < (allMs.insertionSort (fun a b => a ≤ b)).length := by
    omega
  have hmaxMem : (allMs.insertionSort (fun a b => a ≤ b)).getD (allMs.length - 1) 0 ∈ allMs := by
    rw [List.getD_eq_getElem _ _ hmaxIdx]
    exact hpermSort.mem_iff.mp (List.getElem_mem hmaxIdx)
  have hmaxBound : ∀ x ∈ allMs,
      x ≤ (allMs.insertionSort (fun a b => a ≤ b)).getD (allMs.length - 1) 0 := by
    intro x hx
    have hxs : x ∈ allMs.insertionSort (fun a b => a ≤ b) := hpermSort.mem_iff.mpr hx
    obtain ⟨i, hi⟩ := List.get_of_mem hxs
    rw [List.getD_eq_getElem _ _ hmaxIdx]
    rcases Nat.lt_or_ge i.1 (allMs.length - 1) with hlt | hge
    · have := hsortSort.rel_get_of_lt (a := i) (b := ⟨allMs.length - 1, hmaxIdx⟩) hlt
      rw [hi] at this
      simpa [List.get_eq_getElem] using this
    · have hieq : i.1 = allMs.length - 1 := by
        have := i.2
        omega
      rw [← hi]
      simp only [List.get_eq_getElem]
      rw [show i = (⟨allMs.length - 1, hmaxIdx⟩ : Fin _) from Fin.ext hieq]
  have hunfoldMax : (summaryStats allMs).maxMs =
      (allMs.insertionSort (fun a b => a ≤ b)).getD (allMs.length - 1) 0 := by
    simp [summaryStats, hlen]
  refine ⟨?_, ?_, ?_, ?_, ?_, ?_⟩
  · simp [summaryStats, hlen]
  · simp [summaryStats, hlen]
  · exact hunfoldMax
  · rw [hunfoldMax]
    exact hmaxMem
  · rw [hunfoldMax]
    exact hmaxBound
  · simp only [summaryStats, hlen, hsum]
    have h1 : 1 ≤ allMs.length := hpos
    have hmaxq : (1 : ℚ) ⊔ (allMs.length : ℚ) = (allMs.length : ℚ) := by
      rw [sup_eq_right]
      exact_mod_cast h1
    rw [hmaxq]

theorem summary_stats_positional_witness :
    ([10, 50, 30, 90, 20] : List Int) ≠ []
    ∧ (summaryStats [10, 50, 30, 90, 20]).p50 = 30
    ∧ (summaryStats [10, 50, 30, 90, 20]).p90 = 90
    ∧ (summaryStats [10, 50, 30, 90, 20]).maxMs = 90
    ∧ (summaryStats [10, 50, 30, 90, 20]).avgMs = 40 := by
  have h := summary_stats_positional [10, 50, 30, 90, 20] [10, 20, 30, 50, 90]
    (by decide) (by decide) (by decide)
  refine ⟨by decide, h.1, h.2.1, h.2.2.1, ?_⟩
  rw [h.2.2.2.2.2]
  norm_num

theorem runTxLoop_nonces : ∀ (n : Nat) (c : ChainState),
    (runTxLoop n c).1 = List.range' c.pendingNonce n := by
  intro n
  induction n with
  | zero => intro c; rfl
  | succ m ih =>
    intro c
    simp only [runTxLoop, sendOneTx, getTransactionCount, broadcastTx, List.range']
    rw [ih]

theorem getD_range' : ∀ (n s i : Nat), i < n → (List.range' s n).getD i 0 = s + i := by
  intro n
  induction n with
  | zero => intro s i h; omega
  | succ m ih =>
    intro s i h
    match i with
    | 0 => simp [List.range']
    | j + 1 =>
      have := ih (s + 1) j (by omega)
      simp only [List.range', List.getD_cons_succ]
      omega

/-- C8: under the claim's hypotheses — no external party uses the account
and the submission RPC's pending view reflects every previously broadcast
transaction (both captured by the `ChainState` environment model) — the
nonces fetched for the `n` sequential submissions of one run are exactly
`start, start+1, ...` (first conjunct), hence strictly increasing by
exactly 1 between consecutive submissions (second conjunct), because each
is re-fetched from the pending view immediately before its send. -/
theorem nonce_sequential :
    (∀ (c : ChainState) (n : Nat), (runTxLoop n c).1 = List.range' c.pendingNonce n)
    ∧ (∀ (c : ChainState) (n i : Nat), i + 1 < n →
         (runTxLoop n c).1.getD (i + 1) 0 = (runTxLoop n c).1.getD i 0 + 1) := by
  constructor
  · intro c n
    exact runTxLoop_nonces n c
  · intro c n i h
    rw [runTxLoop_nonces n c, getD_range' n c.pendingNonce (i + 1) h,
      getD_range' n c.pendingNonce i (by omega)]
    omega

theorem nonce_sequential_witness :
    (runTxLoop 3 { pendingNonce := 7 }).1 = [7, 8, 9]
    ∧ (runTxLoop 3 { pendingNonce := 7 }).1.getD 2 0 =
        (runTxLoop 3 { pendingNonce := 7 }).1.getD 1 0 + 1 :=
  ⟨(nonce_sequential.1 { pendingNonce := 7 } 3).trans rfl,
   nonce_sequential.2 { pendingNonce := 7 } 3 1 (by decide)⟩

/-- The correspondence between the reader's `blocksSeen` set and the key
set of its `blockData` map: same membership, and both duplicate-free. -/
def readerInv (st : ReaderState) : Prop :=
  (∀ q : JsNum, q ∈ st.blocksSeen ↔ q ∈ st.blockData.map Prod.fst)
  ∧ st.blocksSeen.Nodup
  ∧ (st.blockData.map Prod.fst).Nodup

theorem readerInv_handlePayload (st : ReaderState) (p : List (String × Json)) (t : Nat)
    (h : readerInv st) : readerInv (handlePayload st p t) := by
  obtain ⟨hmem, hnd1, hnd2⟩ := h
  rcases hb : payloadBlockNumber p with _ | k
  · rw [handlePayload_eq_none st p t hb]
    exact ⟨hmem, hnd1, hnd2⟩
  · rw [handlePayload_eq_some st p t k hb]
    refine ⟨?_, nodup_addSeen _ _ hnd1, nodup_keys_aset _ _ _ hnd2⟩
    intro q
    rw [mem_addSeen, mem_keys_aset, hmem q]
    tauto

theorem readerInv_onMessage (c : WireCodec) (st : ReaderState) (data : List Nat)
    (isBinary : Bool) (t : Nat) (h : readerInv st) :
    readerInv (onMessage c st data isBinary t) := by
  have hstep : ∀ st1 : ReaderState, readerInv st1 →
      ∀ items : List Json, readerInv (items.foldl
        (fun s item =>
          match item with
          | Json.obj fields => handlePayload s fields t
          | _ => s) st1) := by
    intro st1 h1 items
    induction items generalizing st1 with
    | nil => exact h1
    | cons item rest ih =>
      rcases item with _ | b | nv | sv | xs | fields <;>
        simp only [List.foldl_cons] <;>
        first
          | exact ih _ h1
          | exact ih _ (readerInv_handlePayload _ _ _ h1)
  have hbase : readerInv { st with
      lastMessageAt := some t, framesReceived := st.framesReceived + 1 } := h
  unfold onMessage
  rcases decodeWsFrameToJsonText c data isBinary with _ | res
  · exact hbase
  · simp only
    have hbase2 : readerInv { st with
        lastMessageAt := some t
        framesReceived := st.framesReceived + 1
        decodeCounts := bumpCount st.decodeCounts res.method } := h
    rcases c.parseJson res.jsonText with _ | j
    · exact hbase2
    · simp only
      by_cases hf : jsFalsy j
      · simp [hf, hbase2]
      · simp only [hf, if_false]
        rcases j with _ | b | nv | sv | xs | fields
        · exact hbase2
        · exact hbase2
        · exact hbase2
        · exact hbase2
        · exact hstep _ hbase2 xs
        · exact readerInv_handlePayload _ _ _ hbase2

theorem readerInv_counts (st : ReaderState) (h : readerInv st) :
    st.blocksSeen.length = st.blockData.length := by
  obtain ⟨hmem, hnd1, hnd2⟩ := h
  have hfin : st.blocksSeen.toFinset = (st.blockData.map Prod.fst).toFinset := by
    apply Finset.ext
    intro q
    simp only [List.mem_toFinset]
    exact hmem q
  have h1 := List.toFinset_card_of_nodup hnd1
  have h2 := List.toFinset_card_of_nodup hnd2
  rw [hfin] at h1
  rw [h1] at h2
  rw [h2, List.length_map]

/-- C10: the set of keys of the per-block aggregate map always equals the
set of distinct observed block numbers: the invariant holds initially, is
preserved by every inbound message (a payload carrying a block number
enters both structures together; nothing else mutates either), and under
it the reported count of unique blocks equals the number of Block
Aggregates — in particular after any whole run of frames. -/
theorem blocks_seen_matches_aggregates :
    readerInv initReaderState
    ∧ (∀ (c : WireCodec) (st : ReaderState) (data : List Nat) (isBinary : Bool) (t : Nat),
         readerInv st → readerInv (onMessage c st data isBinary t))
    ∧ (∀ st : ReaderState, readerInv st → st.blocksSeen.length = st.blockData.length)
    ∧ (∀ (c : WireCodec) (msgs : List (List Nat × Bool × Nat)),
         (processRun c msgs).blocksSeen.length = (processRun c msgs).blockData.length) := by
  have hinit : readerInv initReaderState := by
    refine ⟨?_, ?_, ?_⟩ <;> simp [initReaderState]
  refine ⟨hinit, readerInv_onMessage, readerInv_counts, ?_⟩
  intro c msgs
  have hrun : readerInv (processRun c msgs) := by
    unfold processRun
    have : ∀ (ms : List (List Nat × Bool × Nat)) (st : ReaderState), readerInv st →
        readerInv (ms.foldl (fun s m => onMessage c s m.1 m.2.1 m.2.2) st) := by
      intro ms
      induction ms with
      | nil => intro st h; exact h
      | cons m rest ih =>
        intro st h
        exact ih _ (readerInv_onMessage c st m.1 m.2.1 m.2.2 h)
    exact this msgs initReaderState hinit
  exact readerInv_counts _ hrun

theorem blocks_seen_matches_aggregates_witness :
    readerInv initReaderState
    ∧ readerInv (onMessage
        (WireCodec.mk (fun _ => "y") (fun _ => none) (fun _ => none) (fun _ => none)
          (fun _ => none))
        initReaderState [1] true 3)
    ∧ initReaderState.blocksSeen.length = initReaderState.blockData.length := by
  have h := blocks_seen_matches_aggregates
  exact ⟨h.1,
    h.2.1 (WireCodec.mk (fun _ => "y") (fun _ => none) (fun _ => none) (fun _ => none)
      (fun _ => none)) initReaderState [1] true 3 h.1,
    h.2.2.1 initReaderState h.1⟩
